import Mathlib

/-!
# Verification of the tremor-runtime dataflow core

A shallow embedding of the pipeline actor (src/pipeline.rs), the script
constant-folding and run driver (tremor-script/src/ast.rs) and the syslog
octet-counting frame decoder (src/preprocessor/syslog.rs), with theorems
settling the specification claims about them.
-/

set_option maxRecDepth 4096

/-! ## Value model

The borrowed JSON-like value tree (`simd_json::BorrowedValue`): null, bool,
number, string, array, object.  Numbers are modelled as integers; the claims
under verification never exercise float arithmetic. -/

inductive Val where
  | null
  | bool (b : Bool)
  | num (n : Int)
  | str (s : String)
  | arr (xs : List Val)
  | obj (fs : List (String × Val))
deriving Repr

namespace Val

/-- Model of `ValueTrait::as_bool`: only a boolean value yields `some`. -/
def as_bool : Val → Option Bool
  | .bool b => some b
  | _ => none

/-- Model of `ValueTrait::as_str`: only a string value yields `some`. -/
def as_str : Val → Option String
  | .str s => some s
  | _ => none

/-- Model of `Value::get(key)` on an object: first binding of the key, `none` on
any other value kind (object keys are unique per the data-model invariant). -/
def get (v : Val) (key : String) : Option Val :=
  match v with
  | .obj fs => (fs.find? (fun f => f.1 == key)).map Prod.snd
  | _ => none

/-- Model of `value_type()`: the type tag of a value, used in error reporting. -/
inductive Type' where
  | null | boolT | numT | strT | arrT | objT
deriving DecidableEq, Repr

/-- The type tag of a value. -/
def value_type : Val → Type'
  | .null => .null
  | .bool _ => .boolT
  | .num _ => .numT
  | .str _ => .strT
  | .arr _ => .arrT
  | .obj _ => .objT

end Val

/-! ## Pipeline actor model (src/pipeline.rs)

`TremorURL` is reduced to what the pipeline code observes of it: an identity
(for `id != own_id` comparisons) and `instance_port()`. -/

structure TremorURL where
  uid : Nat
  instancePort : Option String
deriving DecidableEq, Repr

/-- Model of `SignalKind` (tremor-pipeline): the pipeline code only distinguishes
`Tick` from any other kind. -/
inductive SignalKind where
  | tick
  | other
deriving DecidableEq, Repr

/-- Model of `Event`: id, payload value, metadata value, ingest timestamp, signal
kind, batch flag (src/pipeline.rs uses `data.parts()` and `kind`). -/
structure Event where
  id : Nat
  value : Val
  meta : Val
  ingest_ns : Nat
  kind : Option SignalKind
  is_batch : Bool
deriving Repr

/-- A destination endpoint.  The channel behind an `offramp::Addr` or a
pipeline `Addr` is modelled by whether a send on it succeeds (`ok`). -/
inductive Dest where
  | offramp (ok : Bool)
  | pipeline (ok : Bool)
deriving DecidableEq, Repr

/-- Whether a destination is an offramp. -/
def Dest.isOfframp : Dest → Bool
  | .offramp _ => true
  | .pipeline _ => false

/-- Whether a raw channel send on the destination succeeds. -/
def Dest.chanOk : Dest → Bool
  | .offramp ok => ok
  | .pipeline ok => ok

/-- Errors surfaced by the send paths of the pipeline actor. -/
inductive PErr where
  /-- Model of `Error::from(format!("missing instance port in {}.", id))` -/
  | missingPort
  /-- a failed channel send (`SendError` bubbled through `?`) -/
  | channelClosed
  /-- the unsafe `get_unchecked(..len - 1)` on an empty destination vector
  (undefined behaviour in the source; unreachable under the actor invariant
  that routing-table entries are never empty) -/
  | emptyDests
deriving DecidableEq, Repr

/-- One observed delivery of an event to a destination: which destination,
on which input port, which event, and whether the event was moved (`true`,
no clone) or cloned (`false`). -/
structure Delivery where
  destId : TremorURL
  port : String
  event : Event
  moved : Bool
deriving Repr

/-- One send step of `send_events`: resolve `id.instance_port()` (error if
absent) and send on the destination channel (error if the channel fails). -/
def sendOne (entry : TremorURL × Dest) (ev : Event) (moved : Bool) :
    Except PErr Delivery :=
  match entry.1.instancePort with
  | none => .error .missingPort
  | some p =>
    if entry.2.chanOk then .ok ⟨entry.1, p, ev, moved⟩ else .error .channelClosed

/-- The fan-out loop body of `send_events` over one destination list:
`cur` is the next destination; while `rest` is nonempty `cur` is one of the
first `len - 1` destinations and receives `event.clone()`; when `rest` is
empty `cur` is the last destination and receives the event by move.
A failing send aborts (the source propagates the error with `?`); deliveries
made before the failure stand. -/
def fanOutAux (ev : Event) :
    (TremorURL × Dest) → List (TremorURL × Dest) → List Delivery × Option PErr
  | cur, [] =>
    match sendOne cur ev true with
    | .ok d => ([d], none)
    | .error e => ([], some e)
  | cur, next :: rest =>
    match sendOne cur ev false with
    | .error e => ([], some e)
    | .ok d =>
      let r := fanOutAux ev next rest
      (d :: r.1, r.2)

/-- Fan-out of one event to the destination list of one output port
(the inner block of `send_events`).  An empty list hits the out-of-bounds
`get_unchecked` of the source, modelled as the `emptyDests` fault. -/
def fanOut (ev : Event) : List (TremorURL × Dest) → List Delivery × Option PErr
  | [] => ([], some .emptyDests)
  | cur :: rest => fanOutAux ev cur rest

/-- Model of `send_events`: drain the event set; for each `(output, event)` look the
output port up in the routing table and fan the event out to its
destinations; the first error aborts the whole drain (the `?` operator). -/
def send_events (eventset : List (String × Event))
    (dests : List (String × List (TremorURL × Dest))) :
    List Delivery × Option PErr :=
  match eventset with
  | [] => ([], none)
  | (output, ev) :: rest =>
    match (dests.find? (fun d => d.1 == output)).map Prod.snd with
    | none => send_events rest dests
    | some l =>
      let r := fanOut ev l
      match r.2 with
      | some e => (r.1, some e)
      | none =>
        let r2 := send_events rest dests
        (r.1 ++ r2.1, r2.2)

/-- Model of `Dest::send_signal`: an offramp destination is always sent the signal;
a pipeline destination is sent the signal only when its kind is not `Tick`
("Each pipeline has their own ticks, we don't want to propagate them").
Returns the delivered id, or `none` when the signal was dropped. -/
def Dest.send_signal (entry : TremorURL × Dest) (sig : Event) :
    Except PErr (Option (TremorURL × Dest)) :=
  match entry.2 with
  | .offramp ok => if ok then .ok (some entry) else .error .channelClosed
  | .pipeline ok =>
    if sig.kind = some .tick then .ok none
    else if ok then .ok (some entry) else .error .channelClosed

/-- The tail loop of `send_signal`: send the (cloned) signal to each
destination whose id differs from the pipeline's own id, aborting on a
send error. -/
def sendSignalLoop (own : TremorURL) (sig : Event) :
    List (TremorURL × Dest) → List (TremorURL × Dest) × Option PErr
  | [] => ([], none)
  | entry :: rest =>
    if entry.1 ≠ own then
      match Dest.send_signal entry sig with
      | .error e => ([], some e)
      | .ok none => sendSignalLoop own sig rest
      | .ok (some d) =>
        let r := sendSignalLoop own sig rest
        (d :: r.1, r.2)
    else sendSignalLoop own sig rest

/-- Model of `send_signal`: flatten the routing table's destination lists, hold the
first entry back, send the signal (cloned) to every later entry whose id
differs from `own_id`, then send the signal (moved) to the held-back first
entry if its id differs from `own_id`. -/
def send_signal (own : TremorURL) (sig : Event)
    (dests : List (String × List (TremorURL × Dest))) :
    List (TremorURL × Dest) × Option PErr :=
  match (dests.map Prod.snd).flatten with
  | [] => ([], none)
  | first :: rest =>
    let r := sendSignalLoop own sig rest
    match r.2 with
    | some e => (r.1, some e)
    | none =>
      if first.1 ≠ own then
        match Dest.send_signal first sig with
        | .error e => (r.1, some e)
        | .ok none => (r.1, none)
        | .ok (some d) => (r.1 ++ [d], none)
      else (r.1, none)

/-- Control messages delivered to onramps by the contraflow handler. -/
inductive OnrampMsg where
  | trigger
  | restore
deriving DecidableEq, Repr

/-- Model of `handle_insight`: run the insight through the graph's contraflow (the
`ExecutableGraph::contraflow` method lives in the tremor-pipeline crate and
is passed in as a function), then inspect the resulting insight's metadata:
if `trigger` is boolean `true` send `Trigger` to every registered onramp,
otherwise if `restore` is boolean `true` send `Restore` to every registered
onramp. -/
def handle_insight (contraflow : Event → Event) (insight : Event)
    (onramps : List (TremorURL × Nat)) : List (TremorURL × OnrampMsg) :=
  let ins := contraflow insight
  let m := ins.meta
  if ((m.get "trigger").bind Val.as_bool).getD false then
    onramps.map (fun p => (p.1, OnrampMsg.trigger))
  else if ((m.get "restore").bind Val.as_bool).getD false then
    onramps.map (fun p => (p.1, OnrampMsg.restore))
  else []

/-! ## Script AST and constant folding (tremor-script/src/ast.rs)

Source locations, ranges and the node-metadata side table. -/

structure Location where
  line : Nat
  column : Nat
deriving DecidableEq, Repr

/-- A source range (crate::pos::Range). -/
structure Range where
  first : Location
  last : Location
deriving DecidableEq, Repr

/-- Modelled from the spec: `Range::expand_lines` (crate::pos, not under
src/) expands a diagnostic range by `n` lines of context: the start moves up
`n` lines (saturating at line 0) and the end moves down `n` lines. -/
def Range.expand_lines (r : Range) (n : Nat) : Range :=
  ⟨⟨r.first.line - n, r.first.column⟩, ⟨r.last.line + n, r.last.column⟩⟩

/-- One entry of the node-metadata side table: the node's start and end
location (the `name`/`cu` fields are not observed by the folding code). -/
structure NodeMeta where
  first : Location
  last : Location
deriving DecidableEq, Repr

/-- Modelled from the spec: `BaseExpr::extent` (impl_expr2 /
ast/base_expr.rs, not under src/): the range held in the metadata table at
index `mid`, with default locations when the index is absent. -/
def extent (meta : List NodeMeta) (mid : Nat) : Range :=
  match meta.get? mid with
  | some m => ⟨m.first, m.last⟩
  | none => ⟨⟨0, 0⟩, ⟨0, 0⟩⟩

/-- Model of `UnaryOpKind`. -/
inductive UnaryOpKind where
  | plus | minus | notOp | bitNot
deriving DecidableEq, Repr

/-- Model of `BinOpKind`. -/
inductive BinOpKind where
  | or | xor | and | bitOr | bitXor | bitAnd
  | eq | notEq | gte | gt | lte | lt
  | rBitShiftSigned | rBitShiftUnsigned | lBitShift
  | add | sub | mul | div | mod
deriving DecidableEq, Repr

/-- The error kinds raised by the constant-folding paths
(crate::errors::ErrorKind, observed shapes only). -/
inductive ErrorKind where
  /-- Model of `ErrorKind::InvalidUnary(outer, inner, op, type)` -/
  | invalidUnary (outer inner : Range) (kind : UnaryOpKind) (t : Val.Type')
  /-- Model of `ErrorKind::InvalidBinary(outer, inner, op, left type, right type)` -/
  | invalidBinary (outer inner : Range) (kind : BinOpKind) (lt rt : Val.Type')
  /-- a registry-function error converted by `e.into_err(&ex, &ex, ..)`:
  both the outer and the inner range are the invocation's extent -/
  | functionError (outer inner : Range) (code : Nat)
  /-- Model of `reduce2` applied to a non-literal expression (never reached by the
  folding code, which checks `is_lit` first) -/
  | notReducible
  /-- the `unwrap_or_else(|| unreachable!())` on a non-string record key
  (the grammar guarantees record keys are strings) -/
  | unreachableKey
deriving DecidableEq, Repr

/-- An invocable registry function (`Invocable`): the pipeline observes its
`is_const` flag and its `invoke` entry point; a failed invocation returns an
opaque error code. -/
structure Invocable where
  is_const : Bool
  invoke : List Val → Except Nat Val

/-- The immutable-expression AST (`ImutExprInt`), restricted to the node
variants the folding claims are about; `localVar` stands for the
non-foldable `Local` variant.  Record fields carry `(mid, name, value)`. -/
inductive ImutExprInt where
  | literal (mid : Nat) (value : Val)
  | record (mid : Nat) (fields : List (Nat × ImutExprInt × ImutExprInt))
  | listE (mid : Nat) (exprs : List ImutExprInt)
  | binary (mid : Nat) (kind : BinOpKind) (lhs rhs : ImutExprInt)
  | unary (mid : Nat) (kind : UnaryOpKind) (expr : ImutExprInt)
  | localVar (idx : Nat) (mid : Nat) (is_const : Bool)
  | invoke1 (mid : Nat) (invocable : Invocable) (args : List ImutExprInt)
  | invoke2 (mid : Nat) (invocable : Invocable) (args : List ImutExprInt)
  | invoke3 (mid : Nat) (invocable : Invocable) (args : List ImutExprInt)
  | invokeN (mid : Nat) (invocable : Invocable) (args : List ImutExprInt)

/-- Model of `is_lit`: a literal node and nothing else. -/
def is_lit : ImutExprInt → Bool
  | .literal _ _ => true
  | _ => false

/-- Modelled from the spec: `reduce2` (tremor-script/src/ast/raw.rs, not
under src/) extracts the value of an already-folded literal expression; the
folding code only calls it after `is_lit` holds. -/
def reduce2 : ImutExprInt → Except ErrorKind Val
  | .literal _ v => .ok v
  | _ => .error .notReducible

/-- Model of `Invoke` (the struct behind the four `Invoke*` AST variants). -/
structure Invoke where
  mid : Nat
  invocable : Invocable
  args : List ImutExprInt

/-- Model of `Invoke::try_reduce`: when the invocable is const and every argument is
a literal, invoke it at compile time and replace the node by a `Literal`
(an invocation error is converted with the invocation's extent as both
ranges); otherwise keep a runtime invoke node, dispatched on arity to
`Invoke1`/`Invoke2`/`Invoke3`/`Invoke`. -/
def Invoke.try_reduce (meta : List NodeMeta) (inv : Invoke) :
    Except ErrorKind ImutExprInt :=
  if inv.invocable.is_const && inv.args.all is_lit then do
    let ex := extent meta inv.mid
    let args ← inv.args.mapM reduce2
    match inv.invocable.invoke args with
    | .ok v => .ok (.literal inv.mid v)
    | .error code => .error (.functionError ex ex code)
  else
    .ok (match inv.args.length with
      | 1 => .invoke1 inv.mid inv.invocable inv.args
      | 2 => .invoke2 inv.mid inv.invocable inv.args
      | 3 => .invoke3 inv.mid inv.invocable inv.args
      | _ => .invokeN inv.mid inv.invocable inv.args)

/-- The per-field closure of `Record::try_reduce`: reduce the field name,
require a string key (`unwrap_or_else(|| unreachable!())` otherwise — the
grammar rules non-string record keys out), reduce the field value. -/
def reduceField (f : Nat × ImutExprInt × ImutExprInt) :
    Except ErrorKind (String × Val) := do
  let n ← reduce2 f.2.1
  match n.as_str with
  | none => Except.error ErrorKind.unreachableKey
  | some s => do
    let v ← reduce2 f.2.2
    pure (s, v)

/-- Model of `Record::try_reduce`: fold to a single object literal exactly when every
field name and every field value is a literal. -/
def Record.try_reduce (mid : Nat)
    (fields : List (Nat × ImutExprInt × ImutExprInt)) :
    Except ErrorKind ImutExprInt :=
  if fields.all (fun f => is_lit f.2.1 && is_lit f.2.2) then do
    let obj ← fields.mapM reduceField
    .ok (.literal mid (.obj obj))
  else .ok (.record mid fields)

/-- Model of `List::try_reduce`: fold to a single array literal exactly when every
element is a literal. -/
def ListE.try_reduce (mid : Nat) (exprs : List ImutExprInt) :
    Except ErrorKind ImutExprInt :=
  if exprs.all is_lit then do
    let vals ← exprs.mapM reduce2
    .ok (.literal mid (.arr vals))
  else .ok (.listE mid exprs)

/-- Model of `UnaryExpr::try_reduce`: with a literal operand, apply `exec_unary`
(the pure operation semantics, passed in as a function since
interpreter.rs is not under src/); on `None` fail with
`ErrorKind::InvalidUnary(extent.expand_lines(2), extent, op, type)`;
with a non-literal operand keep the `Unary` node. -/
def UnaryExpr.try_reduce (execUnary : UnaryOpKind → Val → Option Val)
    (meta : List NodeMeta) (mid : Nat) (kind : UnaryOpKind)
    (expr : ImutExprInt) : Except ErrorKind ImutExprInt :=
  match expr with
  | .literal _ v =>
    match execUnary kind v with
    | some r => .ok (.literal mid r)
    | none =>
      let ex := extent meta mid
      .error (.invalidUnary (ex.expand_lines 2) ex kind v.value_type)
  | e => .ok (.unary mid kind e)

/-- Modelled from the spec: `exec_binary` (tremor-script/src/interpreter.rs,
not under src/) applies the pure binary operation (passed in as a function);
on an operand-type failure it raises `InvalidBinary` carrying the outer
expression's range expanded by 2 lines of context and the inner expression's
range, with both operand types. -/
def exec_binary (binOp : BinOpKind → Val → Val → Option Val)
    (meta : List NodeMeta) (outerMid innerMid : Nat) (kind : BinOpKind)
    (l r : Val) : Except ErrorKind Val :=
  match binOp kind l r with
  | some v => .ok v
  | none =>
    .error (.invalidBinary ((extent meta outerMid).expand_lines 2)
      (extent meta innerMid) kind l.value_type r.value_type)

/-- Model of `BinExpr::try_reduce`: with two literal operands, run `exec_binary`
passing the `BinExpr` itself as both the outer and the inner expression and
replace the node by a `Literal` of the result; otherwise keep the `Binary`
node. -/
def BinExpr.try_reduce (binOp : BinOpKind → Val → Val → Option Val)
    (meta : List NodeMeta) (mid : Nat) (kind : BinOpKind)
    (lhs rhs : ImutExprInt) : Except ErrorKind ImutExprInt :=
  match lhs, rhs with
  | .literal _ lv, .literal _ rv => do
    let v ← exec_binary binOp meta mid mid kind lv rv
    .ok (.literal mid v)
  | l, r => .ok (.binary mid kind l r)

/-- Modelled from the spec: the interpreter's unfolded runtime evaluation of
a unary operation on an already-evaluated operand (interpreter.rs, not under
src/): apply `exec_unary` and on failure raise `InvalidUnary` with the
expression's range as the inner range and that range expanded by 2 lines of
context as the outer range. -/
def run_unary (execUnary : UnaryOpKind → Val → Option Val)
    (meta : List NodeMeta) (mid : Nat) (kind : UnaryOpKind) (v : Val) :
    Except ErrorKind Val :=
  match execUnary kind v with
  | some r => .ok r
  | none =>
    let ex := extent meta mid
    .error (.invalidUnary (ex.expand_lines 2) ex kind v.value_type)

/-! ## Script::run (tremor-script/src/ast.rs)

The run driver walks the top-level expressions.  An individual expression's
evaluation (`Expr::run`, interpreter.rs, not under src/) is abstracted as a
function from the result-required flag to its continuation result. -/

/-- An opaque runtime error of expression evaluation. -/
structure RunError where
  code : Nat
deriving DecidableEq, Repr

/-- Model of `Cont` (interpreter.rs): the continuation result of one expression. -/
inductive Cont' where
  | drop
  | emit (value : Val) (port : Option String)
  | emitEvent (port : Option String)
  | cont (value : Val)

/-- Model of `Return` (script.rs): the result of a script run. -/
inductive Return where
  | emit (value : Val) (port : Option String)
  | drop
  | emitEvent (port : Option String)

/-- A top-level expression, abstracted as its evaluation function: the
argument is the result-required flag (`opts.with_result()` passes `true`,
`opts.without_result()` passes `false`). -/
def ExprF : Type := Bool → Except RunError Cont'

/-- Model of `Script::run`: iterate the expressions with a peekable iterator; every
expression with a successor runs with the result-required flag off, the last
with it on.  `Drop`, `Emit` and `EmitEvent` continuations return
immediately; a plain value of the last expression becomes the implicit
`Emit { value, port: None }`.  The final `Emit(null)` is the fallthrough the
source marks as unreachable (it is taken only for an empty script). -/
def Script.run (exprs : List ExprF) : Except RunError Return :=
  match exprs with
  | [] => .ok (.emit .null none)
  | [e] =>
    match e true with
    | .error err => .error err
    | .ok .drop => .ok .drop
    | .ok (.emit v p) => .ok (.emit v p)
    | .ok (.emitEvent p) => .ok (.emitEvent p)
    | .ok (.cont v) => .ok (.emit v none)
  | e :: rest =>
    match e false with
    | .error err => .error err
    | .ok .drop => .ok .drop
    | .ok (.emit v p) => .ok (.emit v p)
    | .ok (.emitEvent p) => .ok (.emitEvent p)
    | .ok (.cont _) => Script.run rest

/-- A stopping continuation: everything but `Cont::Cont`. -/
inductive Stop where
  | drop
  | emit (value : Val) (port : Option String)
  | emitEvent (port : Option String)

/-- The first non-`Cont` outcome among the given expressions, each
evaluated with the result-required flag off. -/
def firstStop : List ExprF → Option (Except RunError Stop)
  | [] => none
  | e :: rest =>
    match e false with
    | .error err => some (.error err)
    | .ok .drop => some (.ok .drop)
    | .ok (.emit v p) => some (.ok (.emit v p))
    | .ok (.emitEvent p) => some (.ok (.emitEvent p))
    | .ok (.cont _) => firstStop rest

/-- The specification's description of `Script::run` on a non-empty
expression sequence `init ++ [lastE]`, stated from the spec's words for
comparison: the expressions before the last are evaluated in order with the
result-required flag off and the first `Drop`/`Emit`/`EmitEvent` (or error)
among them decides the result; otherwise the last expression is evaluated
with the flag on, and its plain value becomes the implicit final emit with
port `None`. -/
def runSpecC5 (init : List ExprF) (lastE : ExprF) : Except RunError Return :=
  match firstStop init with
  | some (.error err) => .error err
  | some (.ok .drop) => .ok .drop
  | some (.ok (.emit v p)) => .ok (.emit v p)
  | some (.ok (.emitEvent p)) => .ok (.emitEvent p)
  | none =>
    match lastE true with
    | .error err => .error err
    | .ok .drop => .ok .drop
    | .ok (.emit v p) => .ok (.emit v p)
    | .ok (.emitEvent p) => .ok (.emitEvent p)
    | .ok (.cont v) => .ok (.emit v none)

/-! ## Shadow variables (tremor-script/src/ast.rs, Helper)

The local-variable arena: an insertion-ordered association list from
variable name to slot index (`Helper::locals`, a `HashMap<String, usize>`
whose inserted value is always the map's size at insertion time), plus the
stack of currently shadowed surface identifiers. -/

/-- Model of `shadow_name`: the generated arena key for the `id`-th shadow slot. -/
def shadow_name (id : Nat) : String :=
  " __SHADOW " ++ toString id ++ "__ "

/-- The name-resolution state of `Helper`. -/
structure Helper where
  locals : List (String × Nat)
  shadowed_vars : List String
deriving DecidableEq, Repr

/-- Model of `HashMap::get` on the locals arena. -/
def lookupLocal (locals : List (String × Nat)) (key : String) : Option Nat :=
  (locals.find? (fun p => p.1 == key)).map Prod.snd

/-- Model of `Helper::find_shadow_var`: scan the shadow stack; the last (innermost)
occurrence of the identifier wins, yielding its generated shadow name. -/
def find_shadow_var (h : Helper) (id : String) : Option String :=
  h.shadowed_vars.enum.foldl
    (fun r p => if p.2 = id then some (shadow_name p.1) else r) none

/-- Model of `Helper::var_id`: a currently shadowed identifier resolves to its
generated shadow name, everything else to itself; the key's slot is looked
up in the arena, and an absent key is appended with the next free index
(`locals.len()`). -/
def var_id (h : Helper) (id : String) : Nat × Helper :=
  let key := (find_shadow_var h id).getD id
  match lookupLocal h.locals key with
  | some idx => (idx, h)
  | none =>
    (h.locals.length, { h with locals := h.locals ++ [(key, h.locals.length)] })

/-- Model of `Helper::reserve_shadow`: reserve (or find) the slot of the next shadow
name. -/
def reserve_shadow (h : Helper) : Nat × Helper :=
  var_id h (shadow_name h.shadowed_vars.length)

/-- Model of `Helper::register_shadow_var`: reserve the next shadow slot, then push
the surface identifier on the shadow stack. -/
def register_shadow_var (h : Helper) (id : String) : Nat × Helper :=
  let r := reserve_shadow h
  (r.1, { r.2 with shadowed_vars := r.2.shadowed_vars ++ [id] })

/-- A lexable surface identifier: the lexer never produces an identifier
containing a space character. -/
def isLexable (s : String) : Prop := ' ' ∉ s.data

/-- Well-formedness of the locals arena as maintained by `var_id`: the slot
stored at each position is that position (each insertion appends the then
current length), and keys are unique. -/
def Helper.wf (h : Helper) : Prop :=
  h.locals.map Prod.snd = List.range h.locals.length ∧
    (h.locals.map Prod.fst).Nodup

/-! ## Syslog octet-counting frame decoder (src/preprocessor/syslog.rs) -/

/-- Model of `ParseState`. -/
inductive PState where
  | expectFrameSize
  | expectBytes (n : Nat)
deriving DecidableEq, Repr

/-- Model of `SyslogTLS`: decoder state plus the partial-frame buffer. -/
structure SyslogTLS where
  state : PState
  frame_buffer : List Nat
deriving DecidableEq, Repr

/-- Failures of `SyslogTLS::parse`.  `usizeUnderflow` models the
debug-build panic of the unchecked `usize` subtractions
`frame_size - self.frame_buffer.len()` and
`bytes - self.frame_buffer.len()`. -/
inductive SyslogErr where
  | badSizeString
  | usizeUnderflow
  | fuelExhausted
deriving DecidableEq, Repr

/-- An ASCII decimal digit byte. -/
def isDigit (b : Nat) : Bool := 48 ≤ b && b ≤ 57

/-- Model of `str::from_utf8` plus `str::parse::<usize>` on the size bytes: a
non-empty all-digit byte string parses to its decimal value. -/
def parseUsize (bs : List Nat) : Option Nat :=
  if bs ≠ [] && bs.all isDigit then
    some (bs.foldl (fun a b => a * 10 + (b - 48)) 0)
  else none

/-- The `ExpectFrameSize` loop of `SyslogTLS::parse`.  `data` is the whole
chunk passed to `parse` (captured because the source writes
`self.frame_buffer = data[(first_space_pos + 1)..].to_vec()`, indexing
`data` and not the current `source` suffix), `fb` the current frame buffer,
`source` the not-yet-consumed suffix.  `fuel` only bounds the structural
recursion; every iteration consumes at least one byte of `source`, so
`source.length + 1` fuel never exhausts. -/
def parseSizeLoop (fuel : Nat) (data : List Nat) (fb : List Nat)
    (source : List Nat) (acc : List (List Nat)) :
    Except SyslogErr (SyslogTLS × List (List Nat)) :=
  match fuel with
  | 0 => .error .fuelExhausted
  | fuel + 1 =>
    match source.findIdx? (fun c => c == 32) with
    | some p =>
      match parseUsize (fb ++ source.take p) with
      | none => .error .badSizeString
      | some frame_size =>
        let frame_start := p + 1
        let frame_end := frame_start + frame_size
        if source.length - frame_start ≥ frame_size then
          parseSizeLoop fuel data [] (source.drop frame_end)
            (acc ++ [(source.drop frame_start).take frame_size])
        else
          let fb2 := data.drop (p + 1)
          if frame_size < fb2.length then .error .usizeUnderflow
          else .ok (⟨.expectBytes (frame_size - fb2.length), fb2⟩, acc)
    | none => .ok (⟨.expectFrameSize, fb ++ source⟩, acc)

/-- Model of `SyslogTLS::parse`.  In `ExpectBytes` the source recurses into `parse`
once (with state `ExpectFrameSize` and an emptied buffer), which is inlined
here as the direct `parseSizeLoop` call on the remaining bytes. -/
def SyslogTLS.parse (s : SyslogTLS) (data : List Nat) :
    Except SyslogErr (SyslogTLS × List (List Nat)) :=
  match s.state with
  | .expectFrameSize => parseSizeLoop (data.length + 1) data s.frame_buffer data []
  | .expectBytes bytes =>
    if s.frame_buffer.length + data.length ≥ bytes then
      if bytes < s.frame_buffer.length then .error .usizeUnderflow
      else
        let take_bytes := bytes - s.frame_buffer.length
        let rest := data.drop take_bytes
        parseSizeLoop (rest.length + 1) rest [] rest
          [s.frame_buffer ++ data.take take_bytes]
    else
      .ok (⟨.expectBytes (bytes - data.length), s.frame_buffer ++ data⟩, [])

/-- Model of `SyslogTLS::new`. -/
def SyslogTLS.new : SyslogTLS := ⟨.expectFrameSize, []⟩

/-- Model of `Preprocessor::process`: parse one chunk and return the completed
frames. -/
def SyslogTLS.process (s : SyslogTLS) (data : List Nat) :
    Except SyslogErr (SyslogTLS × List (List Nat)) :=
  s.parse data

/-- Feed a sequence of chunks through `process`, concatenating the emitted
frames across the calls in order. -/
def processAll (s : SyslogTLS) :
    List (List Nat) → Except SyslogErr (SyslogTLS × List (List Nat))
  | [] => .ok (s, [])
  | c :: cs => do
    let r1 ← s.process c
    let r2 ← processAll r1.1 cs
    .ok (r2.1, r1.2 ++ r2.2)

/-! ## Helper definitions used by the theorem statements -/

/-- The destinations that actually receive a forwarded signal, in the order
`send_signal` produces them (the flattened list's tail first, its held-back
head last): every offramp occurrence whose id differs from the pipeline's
own id. -/
def tickRecipients (own : TremorURL) (l : List (TremorURL × Dest)) :
    List (TremorURL × Dest) :=
  match l with
  | [] => []
  | first :: rest =>
    rest.filter (fun e => decide (e.1 ≠ own) && e.2.isOfframp) ++
      [first].filter (fun e => decide (e.1 ≠ own) && e.2.isOfframp)

/-- The deliveries a fully successful fan-out of one event produces: every
destination but the last receives a clone (`moved = false`), the last
receives the event by move (`moved = true`). -/
def expectedDeliveries (ev : Event) : List (TremorURL × Dest) → List Delivery
  | [] => []
  | [e] => [⟨e.1, e.1.instancePort.getD "", ev, true⟩]
  | e :: rest => ⟨e.1, e.1.instancePort.getD "", ev, false⟩ :: expectedDeliveries ev rest

/-- The value of a literal expression (placeholder `null` on non-literals;
only applied under an `is_lit` guard). -/
def litVal : ImutExprInt → Val
  | .literal _ v => v
  | _ => .null

/-- The values of a list of literal expressions. -/
def litVals (es : List ImutExprInt) : List Val := es.map litVal

/-- The object a record constructor with literal string keys and literal
values folds to. -/
def fieldPairs (fields : List (Nat × ImutExprInt × ImutExprInt)) :
    List (String × Val) :=
  fields.map (fun f => ((litVal f.2.1).as_str.getD "", litVal f.2.2))

/-! ## Theorems -/

/-- C10: the octet-counting syslog frame decoder is NOT chunking-invariant
or total.  The valid stream `"1 a3 bcd"` (frames `"a"` and `"bcd"`) decodes
correctly when fed in one call, but splitting it into the chunks
`"1 a3 b"` and `"cd"` makes the first call store `data[(p+1)..]`
(= `"a3 b"`, 4 bytes) as the partial-frame buffer — the index `p` is
relative to the consumed `source` suffix, not to `data` — so the remaining
expected byte count `frame_size - frame_buffer.len() = 3 - 4` underflows
`usize` (a panic in a debug build). -/
theorem syslog_chunking_panics :
    processAll SyslogTLS.new [[49, 32, 97, 51, 32, 98, 99, 100]]
      = .ok (SyslogTLS.new, [[97], [98, 99, 100]])
    ∧ processAll SyslogTLS.new [[49, 32, 97, 51, 32, 98], [99, 100]]
      = .error .usizeUnderflow := by
  exact ⟨rfl, rfl⟩

/-- C1 counterexample: a `Tick` signal is NOT forwarded to a pipeline
destination even when its id differs from the pipeline's own id:
`Dest::send_signal` drops ticks to pipelines, so the only (pipeline)
destination here receives nothing and no error is raised. -/
theorem tick_to_pipeline_counterexample :
    (⟨1, some "in"⟩ : TremorURL) ≠ (⟨0, none⟩ : TremorURL) ∧
    send_signal ⟨0, none⟩ ⟨0, .null, .obj [], 0, some .tick, false⟩
      [("out", [(⟨1, some "in"⟩, Dest.pipeline true)])] = ([], none) := by
  exact ⟨by decide, rfl⟩

/-- The tail loop of `send_signal` on a `Tick` signal delivers exactly to
the offramp entries whose id differs from the pipeline's own id, in list
order, when every such offramp channel accepts. -/
theorem sendSignalLoop_tick (own : TremorURL) (sig : Event)
    (htick : sig.kind = some .tick) :
    ∀ l : List (TremorURL × Dest),
      (∀ e ∈ l, e.2.isOfframp = true → e.2.chanOk = true) →
      sendSignalLoop own sig l
        = (l.filter (fun e => decide (e.1 ≠ own) && e.2.isOfframp), none) := by
  intro l
  induction l with
  | nil => intro _; rfl
  | cons entry rest ih =>
    intro hok
    have hrest : ∀ e ∈ rest, e.2.isOfframp = true → e.2.chanOk = true :=
      fun e he => hok e (List.mem_cons_of_mem _ he)
    by_cases hne : entry.1 ≠ own
    · rcases hd : entry.2 with ok | ok
      · have hchan : entry.2.chanOk = true := by
          refine hok entry (List.mem_cons_self _ _) ?_
          rw [hd]; rfl
        rw [hd] at hchan
        simp only [Dest.chanOk] at hchan
        simp [sendSignalLoop, Dest.send_signal, hd, hne, hchan, ih hrest,
          Dest.isOfframp, List.filter]
      · simp [sendSignalLoop, Dest.send_signal, hd, hne, htick, ih hrest,
          Dest.isOfframp, List.filter]
    · simp [sendSignalLoop, hne, ih hrest, List.filter]

/-- C1 amended: a `Tick` signal delivered to a pipeline is forwarded to
every offramp destination occurrence whose id differs from the pipeline's
own id (the flattened destination list's tail first, its held-back first
entry last), and is forwarded neither to any pipeline destination — each
pipeline has its own ticks — nor to any destination whose id equals the
pipeline's own id. -/
theorem tick_forwarding_amended (own : TremorURL) (sig : Event)
    (dests : List (String × List (TremorURL × Dest)))
    (htick : sig.kind = some .tick)
    (hok : ∀ e ∈ (dests.map Prod.snd).flatten,
      e.2.isOfframp = true → e.2.chanOk = true) :
    send_signal own sig dests
      = (tickRecipients own ((dests.map Prod.snd).flatten), none)
    ∧ ∀ d ∈ (send_signal own sig dests).1,
        d.1 ≠ own ∧ d.2.isOfframp = true := by
  have hmain : send_signal own sig dests
      = (tickRecipients own ((dests.map Prod.snd).flatten), none) := by
    rcases hfl : (dests.map Prod.snd).flatten with _ | ⟨first, rest⟩
    · simp [send_signal, tickRecipients, hfl]
    · rw [hfl] at hok
      have hrest : ∀ e ∈ rest, e.2.isOfframp = true → e.2.chanOk = true :=
        fun e he => hok e (List.mem_cons_of_mem _ he)
      simp only [send_signal, tickRecipients, hfl,
        sendSignalLoop_tick own sig htick rest hrest]
      by_cases hne : first.1 ≠ own
      · rcases hd : first.2 with ok | ok
        · have hchan : first.2.chanOk = true := by
            refine hok first (List.mem_cons_self _ _) ?_
            rw [hd]; rfl
          rw [hd] at hchan
          simp only [Dest.chanOk] at hchan
          simp [Dest.send_signal, hd, hne, hchan, Dest.isOfframp, List.filter]
        · simp [Dest.send_signal, hd, hne, htick, Dest.isOfframp, List.filter]
      · simp [hne, List.filter]
  refine ⟨hmain, ?_⟩
  intro d hd
  rw [hmain] at hd
  simp only [tickRecipients] at hd
  rcases hfl : (dests.map Prod.snd).flatten with _ | ⟨first, rest⟩ <;>
    rw [hfl] at hd
  · simp at hd
  · rcases List.mem_append.mp hd with hmem | hmem <;>
    · have := List.of_mem_filter hmem
      simp only [Bool.and_eq_true, decide_eq_true_eq] at this
      exact this

/-- C2 counterexample: with two offramp destinations on one port, the first
one's channel failing, the event is NOT delivered to the second (working)
destination: `send_events` propagates the first send error with `?` and
aborts the fan-out, so nothing at all is delivered. -/
theorem fanout_failure_counterexample :
    send_events [("out", ⟨1, .null, .null, 0, none, false⟩)]
      [("out", [(⟨1, some "p1"⟩, Dest.offramp false),
                (⟨2, some "p2"⟩, Dest.offramp true)])]
      = ([], some .channelClosed)
    ∧ sendOne (⟨2, some "p2"⟩, Dest.offramp true)
        ⟨1, .null, .null, 0, none, false⟩ false
      = .ok ⟨⟨2, some "p2"⟩, "p2", ⟨1, .null, .null, 0, none, false⟩, false⟩ := by
  exact ⟨rfl, rfl⟩

/-- A destination whose channel send fails aborts `fanOutAux` with no
delivery, whether it is the last destination (moved send) or not. -/
theorem fanOutAux_bad_head (ev : Event) (bad : TremorURL × Dest)
    (tail : List (TremorURL × Dest))
    (hp : bad.1.instancePort.isSome) (hbad : bad.2.chanOk = false) :
    fanOutAux ev bad tail = ([], some .channelClosed) := by
  rcases hport : bad.1.instancePort with _ | p
  · rw [hport] at hp; exact absurd hp (by simp)
  · cases tail <;> simp [fanOutAux, sendOne, hport, hbad]

/-- Fan-out up to the first failing destination: the destinations before it
all receive a clone, the failing one aborts the loop, nothing after it is
sent to. -/
theorem fanOutAux_abort (ev : Event) (bad : TremorURL × Dest)
    (tail : List (TremorURL × Dest))
    (hbp : bad.1.instancePort.isSome) (hbad : bad.2.chanOk = false) :
    ∀ good : List (TremorURL × Dest),
      (∀ e ∈ good, e.1.instancePort.isSome ∧ e.2.chanOk = true) →
      ∀ cur : TremorURL × Dest,
        cur.1.instancePort.isSome → cur.2.chanOk = true →
        fanOutAux ev cur (good ++ bad :: tail)
          = ((cur :: good).map
              (fun e => ⟨e.1, e.1.instancePort.getD "", ev, false⟩),
             some .channelClosed) := by
  intro good
  induction good with
  | nil =>
    intro _ cur hcp hcok
    rcases hport : cur.1.instancePort with _ | p
    · rw [hport] at hcp; exact absurd hcp (by simp)
    · simp [fanOutAux, sendOne, hport, hcok,
        fanOutAux_bad_head ev bad tail hbp hbad]
  | cons g gs ih =>
    intro hgood cur hcp hcok
    rcases hport : cur.1.instancePort with _ | p
    · rw [hport] at hcp; exact absurd hcp (by simp)
    · have hg := hgood g (List.mem_cons_self _ _)
      have hgs : ∀ e ∈ gs, e.1.instancePort.isSome ∧ e.2.chanOk = true :=
        fun e he => hgood e (List.mem_cons_of_mem _ he)
      simp [fanOutAux, sendOne, hport, hcok, ih hgs g hg.1 hg.2]

/-- A channel-send failure to one destination aborts the whole fan-out of
one event: the destinations before the failing one have received a clone,
the failing destination and every destination after it receive nothing. -/
theorem fanOut_abort (ev : Event)
    (good : List (TremorURL × Dest)) (bad : TremorURL × Dest)
    (tail : List (TremorURL × Dest))
    (hgood : ∀ e ∈ good, e.1.instancePort.isSome ∧ e.2.chanOk = true)
    (hbp : bad.1.instancePort.isSome) (hbad : bad.2.chanOk = false) :
    fanOut ev (good ++ bad :: tail)
      = (good.map (fun e => ⟨e.1, e.1.instancePort.getD "", ev, false⟩),
         some .channelClosed) := by
  cases good with
  | nil => simpa [fanOut] using fanOutAux_bad_head ev bad tail hbp hbad
  | cons g gs =>
    have hg := hgood g (List.mem_cons_self _ _)
    have hgs : ∀ e ∈ gs, e.1.instancePort.isSome ∧ e.2.chanOk = true :=
      fun e he => hgood e (List.mem_cons_of_mem _ he)
    simpa [fanOut] using
      fanOutAux_abort ev bad tail hbp hbad gs hgs g hg.1 hg.2

/-- C2 amended: during the fan-out of one event to the destinations
registered for one output port, a failed channel send to one destination
aborts `send_events` with that error: the destinations before the failing
one have received a clone of the event, while the failing destination and
every destination after it in that same fan-out receive nothing. -/
theorem fanout_aborts_on_failure (out : String) (ev : Event)
    (good : List (TremorURL × Dest)) (bad : TremorURL × Dest)
    (tail : List (TremorURL × Dest))
    (hgood : ∀ e ∈ good, e.1.instancePort.isSome ∧ e.2.chanOk = true)
    (hbp : bad.1.instancePort.isSome) (hbad : bad.2.chanOk = false) :
    send_events [(out, ev)] [(out, good ++ bad :: tail)]
      = (good.map (fun e => ⟨e.1, e.1.instancePort.getD "", ev, false⟩),
         some .channelClosed) := by
  simp [send_events, fanOut_abort ev good bad tail hgood hbp hbad]

/-- C2 amended, witness. -/
theorem fanout_aborts_on_failure_witness :
    send_events [("out", ⟨1, .null, .null, 0, none, false⟩)]
      [("out", [(⟨1, some "p1"⟩, Dest.offramp true),
                (⟨2, some "p2"⟩, Dest.offramp false),
                (⟨3, some "p3"⟩, Dest.offramp true)])]
      = ([⟨⟨1, some "p1"⟩, "p1", ⟨1, .null, .null, 0, none, false⟩, false⟩],
         some .channelClosed) := by
  exact fanout_aborts_on_failure "out" ⟨1, .null, .null, 0, none, false⟩
    [(⟨1, some "p1"⟩, Dest.offramp true)] (⟨2, some "p2"⟩, Dest.offramp false)
    [(⟨3, some "p3"⟩, Dest.offramp true)]
    (by intro e he; simp at he; rw [he]; exact ⟨rfl, rfl⟩) rfl rfl

/-- A fully successful fan-out: every destination but the last receives a
clone, the last receives the moved event, in list order. -/
theorem fanOutAux_ok (ev : Event) :
    ∀ (rest : List (TremorURL × Dest)) (cur : TremorURL × Dest),
      (∀ e ∈ cur :: rest, e.1.instancePort.isSome ∧ e.2.chanOk = true) →
      fanOutAux ev cur rest = (expectedDeliveries ev (cur :: rest), none) := by
  intro rest
  induction rest with
  | nil =>
    intro cur h
    have hc := h cur (List.mem_cons_self _ _)
    rcases hport : cur.1.instancePort with _ | p
    · rw [hport] at hc; exact absurd hc.1 (by simp)
    · simp [fanOutAux, sendOne, expectedDeliveries, hport, hc.2]
  | cons next rest ih =>
    intro cur h
    have hc := h cur (List.mem_cons_self _ _)
    have hrest : ∀ e ∈ next :: rest, e.1.instancePort.isSome ∧ e.2.chanOk = true :=
      fun e he => h e (List.mem_cons_of_mem _ he)
    rcases hport : cur.1.instancePort with _ | p
    · rw [hport] at hc; exact absurd hc.1 (by simp)
    · simp [fanOutAux, sendOne, expectedDeliveries, hport, hc.2, ih next hrest]

/-- The destinations of the expected deliveries, in order. -/
theorem expectedDeliveries_destIds (ev : Event) :
    ∀ l : List (TremorURL × Dest),
      (expectedDeliveries ev l).map Delivery.destId = l.map Prod.fst := by
  intro l
  induction l with
  | nil => rfl
  | cons e rest ih =>
    cases rest with
    | nil => rfl
    | cons e2 rest2 => simp [expectedDeliveries] at ih ⊢; exact ih

/-- Every expected delivery carries the fanned-out event itself. -/
theorem expectedDeliveries_event (ev : Event) :
    ∀ l : List (TremorURL × Dest), ∀ d ∈ expectedDeliveries ev l, d.event = ev := by
  intro l
  induction l with
  | nil => intro d hd; simp [expectedDeliveries] at hd
  | cons e rest ih =>
    intro d hd
    cases rest with
    | nil =>
      simp [expectedDeliveries] at hd
      rw [hd]
    | cons e2 rest2 =>
      simp only [expectedDeliveries, List.mem_cons] at hd
      rcases hd with hd | hd
      · rw [hd]
      · exact ih d hd

/-- The clone/move pattern of the expected deliveries: all but the last are
clones, the last is the moved original. -/
theorem expectedDeliveries_moved (ev : Event) :
    ∀ (l : List (TremorURL × Dest)), l ≠ [] →
      (expectedDeliveries ev l).map Delivery.moved
        = List.replicate (l.length - 1) false ++ [true] := by
  intro l
  induction l with
  | nil => intro h; exact absurd rfl h
  | cons e rest ih =>
    intro _
    cases rest with
    | nil => rfl
    | cons e2 rest2 =>
      have ih2 := ih (by simp)
      simp only [expectedDeliveries, List.map_cons, ih2]
      simp [List.replicate_succ]

/-- C3: for an output port with at least two registered destinations whose
channels all accept, one event is delivered to all of them in order: each
delivery carries the event itself (logical equality), destinations
`1..N-1` receive clones (`moved = false`) and the last destination receives
the original event by move (`moved = true`). -/
theorem fanout_clone_semantics (out : String) (ev : Event)
    (l : List (TremorURL × Dest)) (h2 : 2 ≤ l.length)
    (hok : ∀ e ∈ l, e.1.instancePort.isSome ∧ e.2.chanOk = true) :
    send_events [(out, ev)] [(out, l)] = (expectedDeliveries ev l, none)
    ∧ (expectedDeliveries ev l).map Delivery.destId = l.map Prod.fst
    ∧ (∀ d ∈ expectedDeliveries ev l, d.event = ev)
    ∧ (expectedDeliveries ev l).map Delivery.moved
        = List.replicate (l.length - 1) false ++ [true] := by
  rcases hl : l with _ | ⟨cur, rest⟩
  · rw [hl] at h2; simp at h2
  · rw [hl] at hok
    refine ⟨?_, expectedDeliveries_destIds ev _, expectedDeliveries_event ev _,
      expectedDeliveries_moved ev _ (by simp)⟩
    simp [send_events, fanOut, fanOutAux_ok ev rest cur hok]

/-- C3, witness. -/
theorem fanout_clone_semantics_witness :
    send_events [("out", ⟨5, .num 3, .null, 0, none, false⟩)]
      [("out", [(⟨1, some "in1"⟩, Dest.offramp true),
                (⟨2, some "in2"⟩, Dest.pipeline true)])]
      = ([⟨⟨1, some "in1"⟩, "in1", ⟨5, .num 3, .null, 0, none, false⟩, false⟩,
          ⟨⟨2, some "in2"⟩, "in2", ⟨5, .num 3, .null, 0, none, false⟩, true⟩],
         none) := by
  have h := (fanout_clone_semantics "out" ⟨5, .num 3, .null, 0, none, false⟩
    [(⟨1, some "in1"⟩, Dest.offramp true), (⟨2, some "in2"⟩, Dest.pipeline true)]
    (by decide) (by decide)).1
  simpa [expectedDeliveries] using h

/-- C1 amended, witness. -/
theorem tick_forwarding_amended_witness :
    send_signal ⟨0, none⟩ ⟨0, .null, .obj [], 0, some .tick, false⟩
      [("out", [(⟨1, some "a"⟩, Dest.offramp true), (⟨0, none⟩, Dest.offramp true),
                (⟨2, some "b"⟩, Dest.pipeline true)])]
      = ([(⟨1, some "a"⟩, Dest.offramp true)], none) := by
  have h := (tick_forwarding_amended ⟨0, none⟩
    ⟨0, .null, .obj [], 0, some .tick, false⟩
    [("out", [(⟨1, some "a"⟩, Dest.offramp true), (⟨0, none⟩, Dest.offramp true),
              (⟨2, some "b"⟩, Dest.pipeline true)])]
    rfl (by decide)).1
  simpa [tickRecipients] using h

/-- The per-key message count of a uniform broadcast equals the key's
multiplicity among the registered onramps. -/
theorem broadcast_filter_length (onramps : List (TremorURL × Nat))
    (msg : OnrampMsg) (u : TremorURL) :
    ((onramps.map (fun p => (p.1, msg))).filter
      (fun q => q.1 == u)).length = (onramps.map Prod.fst).count u := by
  induction onramps with
  | nil => rfl
  | cons p rest ih =>
    rcases h : (p.1 == u) with _ | _ <;>
      simp_all [List.filter_cons, List.count_cons, ih, beq_iff_eq]

/-- C4: circuit-breaker propagation of `handle_insight` on the contraflow
result's metadata: with `trigger` boolean `true`, every registered onramp
receives exactly one `Trigger` and no `Restore`; otherwise with `restore`
boolean `true`, every registered onramp receives exactly one `Restore` and
no `Trigger`; in every case no onramp is signalled twice for one insight. -/
theorem insight_circuit_breaker (cf : Event → Event) (insight : Event)
    (onramps : List (TremorURL × Nat))
    (hnodup : (onramps.map Prod.fst).Nodup) :
    ((((cf insight).meta.get "trigger").bind Val.as_bool).getD false = true →
      handle_insight cf insight onramps
          = onramps.map (fun p => (p.1, OnrampMsg.trigger))
      ∧ ∀ u ∈ onramps.map Prod.fst,
          ((handle_insight cf insight onramps).filter
            (fun q => q.1 == u)).length = 1
          ∧ (u, OnrampMsg.restore) ∉ handle_insight cf insight onramps)
    ∧ ((((cf insight).meta.get "trigger").bind Val.as_bool).getD false = false →
       (((cf insight).meta.get "restore").bind Val.as_bool).getD false = true →
      handle_insight cf insight onramps
          = onramps.map (fun p => (p.1, OnrampMsg.restore))
      ∧ ∀ u ∈ onramps.map Prod.fst,
          ((handle_insight cf insight onramps).filter
            (fun q => q.1 == u)).length = 1
          ∧ (u, OnrampMsg.trigger) ∉ handle_insight cf insight onramps)
    ∧ (∀ u : TremorURL,
        ((handle_insight cf insight onramps).filter
          (fun q => q.1 == u)).length ≤ 1) := by
  refine ⟨?_, ?_, ?_⟩
  · intro htrig
    have heq : handle_insight cf insight onramps
        = onramps.map (fun p => (p.1, OnrampMsg.trigger)) := by
      simp [handle_insight, htrig]
    refine ⟨heq, ?_⟩
    intro u hu
    rw [heq]
    constructor
    · rw [broadcast_filter_length]
      exact List.count_eq_one_of_mem hnodup hu
    · intro hmem
      rcases List.mem_map.mp hmem with ⟨p, _, hp⟩
      simp at hp
  · intro htrig hrest
    have heq : handle_insight cf insight onramps
        = onramps.map (fun p => (p.1, OnrampMsg.restore)) := by
      simp [handle_insight, htrig, hrest]
    refine ⟨heq, ?_⟩
    intro u hu
    rw [heq]
    constructor
    · rw [broadcast_filter_length]
      exact List.count_eq_one_of_mem hnodup hu
    · intro hmem
      rcases List.mem_map.mp hmem with ⟨p, _, hp⟩
      simp at hp
  · intro u
    by_cases htrig :
        (((cf insight).meta.get "trigger").bind Val.as_bool).getD false = true
    · rw [show handle_insight cf insight onramps
          = onramps.map (fun p => (p.1, OnrampMsg.trigger)) by
            simp [handle_insight, htrig],
        broadcast_filter_length]
      exact List.nodup_iff_count_le_one.mp hnodup u
    · by_cases hrest :
          (((cf insight).meta.get "restore").bind Val.as_bool).getD false = true
      · rw [show handle_insight cf insight onramps
            = onramps.map (fun p => (p.1, OnrampMsg.restore)) by
              simp [handle_insight, htrig, hrest],
          broadcast_filter_length]
        exact List.nodup_iff_count_le_one.mp hnodup u
      · simp [handle_insight, htrig, hrest]

/-- C4, witness. -/
theorem insight_circuit_breaker_witness :
    handle_insight id ⟨0, .null, .obj [("trigger", .bool true)], 0, none, false⟩
      [(⟨1, none⟩, 10), (⟨2, none⟩, 11)]
      = [(⟨1, none⟩, OnrampMsg.trigger), (⟨2, none⟩, OnrampMsg.trigger)] := by
  have h := (insight_circuit_breaker id
    ⟨0, .null, .obj [("trigger", .bool true)], 0, none, false⟩
    [(⟨1, none⟩, 10), (⟨2, none⟩, 11)] (by decide)).1 rfl
  simpa using h.1

/-- C5: on every non-empty expression sequence (written `init ++ [lastE]`),
`Script::run` evaluates the expressions in order, every expression before
the last with the result-required flag off and only the last with it on;
the result is `Drop` on the first `Drop`, `Emit {value, port}` on the first
explicit emit, `EmitEvent {port}` on the first bare emit of the unchanged
event, a propagated error on the first failing expression, and otherwise
the implicit final emit of the last expression's value with port `None`. -/
theorem script_run_matches_spec (init : List ExprF) (lastE : ExprF) :
    Script.run (init ++ [lastE]) = runSpecC5 init lastE := by
  induction init with
  | nil =>
    show Script.run [lastE] = runSpecC5 [] lastE
    rcases h : lastE true with err | c
    · simp [Script.run, runSpecC5, firstStop, h]
    · cases c <;> simp [Script.run, runSpecC5, firstStop, h]
  | cons e rest ih =>
    obtain ⟨x, xs, heq⟩ : ∃ x xs, rest ++ [lastE] = x :: xs := by
      cases rest with
      | nil => exact ⟨lastE, [], rfl⟩
      | cons a as => exact ⟨a, as ++ [lastE], rfl⟩
    show Script.run (e :: (rest ++ [lastE])) = runSpecC5 (e :: rest) lastE
    rw [heq] at ih ⊢
    rcases h : e false with err | c
    · simp [Script.run, runSpecC5, firstStop, h]
    · cases c <;> simp [Script.run, runSpecC5, firstStop, h, ih]

/-- Mapping `reduce2` over a list of literals yields exactly their values. -/
theorem mapM_reduce2_of_all_lit :
    ∀ es : List ImutExprInt, es.all is_lit = true →
      es.mapM reduce2 = .ok (litVals es) := by
  intro es
  induction es with
  | nil => intro _; rfl
  | cons e rest ih =>
    intro hall
    simp only [List.all_cons, Bool.and_eq_true] at hall
    rcases e with _ | _ | _ | _ | _ | _ | _ | _ | _ | _
    case literal m v =>
      rw [List.mapM_cons, ih hall.2]
      simp [reduce2, litVals, litVal, Bind.bind, Except.bind, Pure.pure, Except.pure]
    all_goals simp [is_lit] at hall

/-- C6: `Invoke::try_reduce` folds an invocation to a `Literal` exactly when
the invocable is marked const and every argument is a literal — evaluating
the invocable on the argument values, a failure being converted with the
invocation's extent as both ranges — and otherwise leaves a runtime invoke
node dispatched on arity to `Invoke1`/`Invoke2`/`Invoke3`/`Invoke`. -/
theorem invoke_try_reduce_characterization (meta : List NodeMeta)
    (inv : Invoke) :
    (inv.invocable.is_const = true → inv.args.all is_lit = true →
      Invoke.try_reduce meta inv =
        match inv.invocable.invoke (litVals inv.args) with
        | .ok v => .ok (.literal inv.mid v)
        | .error code =>
          .error (.functionError (extent meta inv.mid)
            (extent meta inv.mid) code)) ∧
    (¬(inv.invocable.is_const = true ∧ inv.args.all is_lit = true) →
      Invoke.try_reduce meta inv = .ok (match inv.args.length with
        | 1 => .invoke1 inv.mid inv.invocable inv.args
        | 2 => .invoke2 inv.mid inv.invocable inv.args
        | 3 => .invoke3 inv.mid inv.invocable inv.args
        | _ => .invokeN inv.mid inv.invocable inv.args)) := by
  constructor
  · intro h1 h2
    rw [Invoke.try_reduce]
    rw [h1, h2]
    simp only [Bool.and_self, if_true]
    rw [mapM_reduce2_of_all_lit _ h2]
    rcases hres : inv.invocable.invoke (litVals inv.args) with code | v <;>
      simp [Bind.bind, Except.bind, hres]
  · intro h
    have hcond : (inv.invocable.is_const && inv.args.all is_lit) = false := by
      rcases h1 : inv.invocable.is_const <;>
        rcases h2 : inv.args.all is_lit <;> simp_all
    rw [Invoke.try_reduce, hcond]
    simp

/-- C6, witness: a const invocable applied to a literal argument folds to
the literal result. -/
theorem invoke_try_reduce_witness :
    Invoke.try_reduce []
      ⟨7, ⟨true, fun _ => .ok (.num 42)⟩, [.literal 1 (.num 1)]⟩
      = .ok (.literal 7 (.num 42)) := by
  have h := (invoke_try_reduce_characterization []
    ⟨7, ⟨true, fun _ => .ok (.num 42)⟩, [.literal 1 (.num 1)]⟩).1 rfl rfl
  simpa using h

/-- Mapping `reduceField` over literal fields with string-literal names yields
exactly the key/value pairs of the folded object. -/
theorem mapM_reduceField_of_lit :
    ∀ fields : List (Nat × ImutExprInt × ImutExprInt),
      fields.all (fun f => is_lit f.2.1 && is_lit f.2.2) = true →
      (∀ f ∈ fields, ∃ m s, f.2.1 = .literal m (.str s)) →
      fields.mapM reduceField = .ok (fieldPairs fields) := by
  intro fields
  induction fields with
  | nil => intro _ _; rfl
  | cons f rest ih =>
    intro hall hstr
    rw [List.all_cons, Bool.and_eq_true, Bool.and_eq_true] at hall
    obtain ⟨⟨hn, hv⟩, hrest⟩ := hall
    obtain ⟨m, s, hname⟩ := hstr f (List.mem_cons_self _ _)
    have hrests : ∀ g ∈ rest, ∃ m s, g.2.1 = .literal m (.str s) :=
      fun g hg => hstr g (List.mem_cons_of_mem _ hg)
    obtain ⟨fm, fname, fval⟩ := f
    simp only at hname hv
    rcases fval with _ | _ | _ | _ | _ | _ | _ | _ | _ | _ <;>
      simp [is_lit] at hv
    case literal m2 v =>
      rw [List.mapM_cons, ih hrest hrests]
      simp [reduceField, reduce2, hname, Val.as_str, fieldPairs, litVal,
        Bind.bind, Except.bind, Pure.pure, Except.pure]

/-- C7: a record constructor folds to a single `Literal` exactly when every
field name and every field value is a literal (names being string literals,
as the grammar guarantees), the folded value being the object of the
reduced key/value pairs; a list constructor folds to a single `Literal`
exactly when every element is a literal, the folded value being the array
of the element values; otherwise the constructor node is returned
unchanged. -/
theorem constructor_fold_characterization (mid : Nat)
    (fields : List (Nat × ImutExprInt × ImutExprInt))
    (exprs : List ImutExprInt) :
    (fields.all (fun f => is_lit f.2.1 && is_lit f.2.2) = true →
     (∀ f ∈ fields, ∃ m s, f.2.1 = .literal m (.str s)) →
      Record.try_reduce mid fields
        = .ok (.literal mid (.obj (fieldPairs fields)))) ∧
    (fields.all (fun f => is_lit f.2.1 && is_lit f.2.2) = false →
      Record.try_reduce mid fields = .ok (.record mid fields)) ∧
    (exprs.all is_lit = true →
      ListE.try_reduce mid exprs = .ok (.literal mid (.arr (litVals exprs)))) ∧
    (exprs.all is_lit = false →
      ListE.try_reduce mid exprs = .ok (.listE mid exprs)) := by
  refine ⟨?_, ?_, ?_, ?_⟩
  · intro hall hstr
    rw [Record.try_reduce, hall]
    rw [mapM_reduceField_of_lit fields hall hstr]
    simp [Bind.bind, Except.bind]
  · intro hall
    rw [Record.try_reduce, hall]
    simp
  · intro hall
    rw [ListE.try_reduce, hall]
    rw [mapM_reduce2_of_all_lit exprs hall]
    simp [Bind.bind, Except.bind]
  · intro hall
    rw [ListE.try_reduce, hall]
    simp

/-- C7, witness: a one-field literal record and a mixed list. -/
theorem constructor_fold_witness :
    Record.try_reduce 9 [(0, .literal 1 (.str "k"), .literal 2 (.num 5))]
      = .ok (.literal 9 (.obj [("k", .num 5)]))
    ∧ ListE.try_reduce 4 [.literal 1 (.num 5), .localVar 0 2 false]
      = .ok (.listE 4 [.literal 1 (.num 5), .localVar 0 2 false]) := by
  constructor
  · have h := (constructor_fold_characterization 9
      [(0, .literal 1 (.str "k"), .literal 2 (.num 5))] []).1 rfl
      (by intro f hf; simp at hf; rw [hf]; exact ⟨1, "k", rfl⟩)
    simpa [fieldPairs, litVal] using h
  · have h := (constructor_fold_characterization 4 []
      [.literal 1 (.num 5), .localVar 0 2 false]).2.2.2 rfl
    simpa using h

/-- C8: when constant folding itself fails, compilation fails with the same
error kind unfolded runtime evaluation would produce, carrying the original
expression's range as the inner range and that range expanded by 2 lines of
context as the outer range.  Folding a literal-operand unary expression
produces exactly the unfolded `run_unary` result (mapped into a literal
node), and on an `exec_unary` failure that is
`InvalidUnary(extent.expand_lines(2), extent, op, type)`; folding a
literal-operand binary expression produces exactly the `exec_binary` result
with the `BinExpr` itself as both the outer and the inner expression, and on
failure that is `InvalidBinary(extent.expand_lines(2), extent, op, types)`. -/
theorem fold_error_transparency
    (execUnary : UnaryOpKind → Val → Option Val)
    (binOp : BinOpKind → Val → Val → Option Val)
    (meta : List NodeMeta) (mid lm rm : Nat) (ukind : UnaryOpKind)
    (bkind : BinOpKind) (v lv rv : Val) :
    (UnaryExpr.try_reduce execUnary meta mid ukind (.literal lm v)
       = (run_unary execUnary meta mid ukind v).map
           (fun r => .literal mid r)) ∧
    (execUnary ukind v = none →
      UnaryExpr.try_reduce execUnary meta mid ukind (.literal lm v)
        = .error (.invalidUnary ((extent meta mid).expand_lines 2)
            (extent meta mid) ukind v.value_type)) ∧
    (BinExpr.try_reduce binOp meta mid bkind (.literal lm lv) (.literal rm rv)
       = (exec_binary binOp meta mid mid bkind lv rv).map
           (fun r => .literal mid r)) ∧
    (binOp bkind lv rv = none →
      BinExpr.try_reduce binOp meta mid bkind (.literal lm lv) (.literal rm rv)
        = .error (.invalidBinary ((extent meta mid).expand_lines 2)
            (extent meta mid) bkind lv.value_type rv.value_type)) := by
  refine ⟨?_, ?_, ?_, ?_⟩
  · rcases h : execUnary ukind v with _ | r <;>
      simp [UnaryExpr.try_reduce, run_unary, h, Except.map]
  · intro h
    simp [UnaryExpr.try_reduce, h]
  · rcases h : binOp bkind lv rv with _ | r <;>
      simp [BinExpr.try_reduce, exec_binary, h, Except.map,
        Bind.bind, Except.bind]
  · intro h
    simp [BinExpr.try_reduce, exec_binary, h, Bind.bind, Except.bind]

/-- C8, witness: a unary operation undefined on its operand type folds to
the `InvalidUnary` error whose inner range is the expression's extent (line
5) and whose outer range is that extent expanded by 2 lines (lines 3-7). -/
theorem fold_error_transparency_witness :
    UnaryExpr.try_reduce (fun _ _ => none) [⟨⟨5, 1⟩, ⟨5, 9⟩⟩] 0
      UnaryOpKind.minus (.literal 0 (.str "x"))
      = .error (.invalidUnary ⟨⟨3, 1⟩, ⟨7, 9⟩⟩ ⟨⟨5, 1⟩, ⟨5, 9⟩⟩
          UnaryOpKind.minus .strT) := by
  have h := (fold_error_transparency (fun _ _ => none) (fun _ _ _ => none)
    [⟨⟨5, 1⟩, ⟨5, 9⟩⟩] 0 0 0 UnaryOpKind.minus BinOpKind.add
    (.str "x") .null .null).2.1 rfl
  simpa [extent, Range.expand_lines, Val.value_type] using h

/-- Every generated shadow name contains a space character. -/
theorem space_mem_shadow_name (n : Nat) : ' ' ∈ (shadow_name n).data := by
  have hmem : ' ' ∈ (" __SHADOW ").data := by decide
  simp only [shadow_name, String.data_append, List.mem_append]
  exact Or.inl (Or.inl hmem)

/-- A generated shadow name never equals a lexable surface identifier. -/
theorem shadow_name_ne_lexable (n : Nat) (s : String) (hs : isLexable s) :
    shadow_name n ≠ s := by
  intro heq
  exact hs (heq ▸ space_mem_shadow_name n)

/-- A successful arena lookup exhibits its binding. -/
theorem mem_of_lookupLocal {l : List (String × Nat)} {k : String} {v : Nat}
    (hl : lookupLocal l k = some v) : (k, v) ∈ l := by
  unfold lookupLocal at hl
  rcases Option.map_eq_some'.mp hl with ⟨a, hfind, hsnd⟩
  have hmem := List.mem_of_find?_eq_some hfind
  have hp := List.find?_some hfind
  have hfst : a.1 = k := by simpa [beq_iff_eq] using hp
  have : a = (k, v) := by
    obtain ⟨a1, a2⟩ := a
    simp only at hfst hsnd
    rw [hfst, hsnd]
  exact this ▸ hmem

/-- In a well-formed arena, two keys bound to the same slot are equal. -/
theorem key_unique {h : Helper} (hwf : h.wf) {k1 k2 : String} {v : Nat}
    (h1 : (k1, v) ∈ h.locals) (h2 : (k2, v) ∈ h.locals) : k1 = k2 := by
  have hnodup : (h.locals.map Prod.snd).Nodup := by
    rw [hwf.1]; exact List.nodup_range _
  have := List.inj_on_of_nodup_map hnodup h1 h2 rfl
  exact congrArg Prod.fst this

/-- In a well-formed arena, every bound slot is below the arena size. -/
theorem lookup_lt_length {h : Helper} (hwf : h.wf) {k : String} {v : Nat}
    (hl : lookupLocal h.locals k = some v) : v < h.locals.length := by
  have hmem := mem_of_lookupLocal hl
  have : v ∈ h.locals.map Prod.snd := List.mem_map_of_mem Prod.snd hmem
  rw [hwf.1] at this
  exact List.mem_range.mp this

/-- C9: shadow slots never alias outer slots.  Every generated shadow name
contains spaces, so it can never equal a lexable surface identifier; and
`var_id` resolves a currently-shadowed identifier to the slot of its
generated shadow name, which differs from the slot the arena holds for the
plain (outer-scope) identifier. -/
theorem shadow_slot_no_alias (h : Helper) (id : String) (i j : Nat)
    (hwf : h.wf) (hlex : isLexable id)
    (hsh : find_shadow_var h id = some (shadow_name i))
    (houter : lookupLocal h.locals id = some j) :
    (∀ n, ' ' ∈ (shadow_name n).data) ∧
    (∀ n s, isLexable s → shadow_name n ≠ s) ∧
    (var_id h id).1 ≠ j := by
  refine ⟨space_mem_shadow_name, shadow_name_ne_lexable, ?_⟩
  unfold var_id
  rw [hsh]
  simp only [Option.getD_some]
  rcases hcase : lookupLocal h.locals (shadow_name i) with _ | k
  · simp only
    have hj : j < h.locals.length := lookup_lt_length hwf houter
    exact (Nat.ne_of_lt hj).symm
  · simp only
    intro hkj
    have hmem1 := mem_of_lookupLocal hcase
    have hmem2 := mem_of_lookupLocal houter
    rw [hkj] at hmem1
    exact shadow_name_ne_lexable i id hlex (key_unique hwf hmem1 hmem2)

/-- C9, witness: with `x` bound to slot 0, shadowed by shadow slot 1,
`var_id` resolves `x` to slot 1, not the outer slot 0. -/
theorem shadow_slot_no_alias_witness :
    (var_id ⟨[("x", 0), (" __SHADOW 0__ ", 1)], ["x"]⟩ "x").1 ≠ 0 := by
  refine (shadow_slot_no_alias ⟨[("x", 0), (" __SHADOW 0__ ", 1)], ["x"]⟩
    "x" 0 0 ⟨by decide, by decide⟩ (by show ' ' ∉ "x".data; decide) ?_ rfl).2.2
  rfl
